import Mathlib

/-!
Shallow embedding of `src/transaction-queue.ts` (the transaction and task
queue of the EVM-MCP repository).

Modelling choices, all taken from the source:
* A JavaScript `Map` is modelled as an insertion-ordered association list
  (`JsMap`): `set` of a present key overwrites its value in place, `set` of
  a fresh key appends, `values()` iterates in insertion order, `delete`
  removes the single entry with the key.
* The TypeScript payload fields typed `any` (`params`, `result`, `error`)
  are never inspected by the queue, so they are modelled with the concrete
  carrier `String`.
* `Date.now()` and the randomly generated transaction id are environment
  inputs, so the model takes `now : Nat` and the id as explicit arguments.
* `this.events.emit(channel, payload)` is modelled by having each mutator
  return the list of emitted events next to the new state; Node's
  `EventEmitter` delivers synchronously, so the event payloads are exactly
  the records at the time of the call.
* `Array.prototype.sort` with comparator `(a, b) => a.timestamp - b.timestamp`
  is a stable sort (ES2019); a stable sort for a total preorder is unique as
  a function, so the insertion sort `sortByTs` below computes exactly it.
-/

/-- JavaScript `Map` semantics over an insertion-ordered association list. -/
abbrev JsMap (κ α : Type) : Type := List (κ × α)

namespace JsMap

variable {κ α : Type} [DecidableEq κ]

/-- `Map.prototype.get`: the value of the entry with the key, if present. -/
def get : JsMap κ α → κ → Option α
  | [], _ => none
  | (k, v) :: rest, key => if k = key then some v else get rest key

/-- `Map.prototype.set`: overwrite in place if the key is present, else append. -/
def set : JsMap κ α → κ → α → JsMap κ α
  | [], key, v => [(key, v)]
  | (k, w) :: rest, key, v =>
    if k = key then (k, v) :: rest else (k, w) :: set rest key v

/-- `Map.prototype.delete`: remove the entry with the key, if present. -/
def del : JsMap κ α → κ → JsMap κ α
  | [], _ => []
  | (k, w) :: rest, key => if k = key then rest else (k, w) :: del rest key

/-- `Map.prototype.values()`, as a list in insertion order. -/
def values (m : JsMap κ α) : List α := m.map Prod.snd

end JsMap

/-- `TransactionStatus` from the source:
`'pending' | 'confirming' | 'confirmed' | 'failed'`. -/
inductive TransactionStatus where
  | pending
  | confirming
  | confirmed
  | failed
deriving DecidableEq, Repr

/-- `TaskStatus` from the source:
`'pending' | 'processing' | 'completed' | 'failed'`. -/
inductive TaskStatus where
  | pending
  | processing
  | completed
  | failed
deriving DecidableEq, Repr

/-- `interface TransactionRecord` from the source. Optional fields are
`Option`; the `any` payloads are the opaque carrier `String`. -/
structure TransactionRecord where
  id : String
  hash : Option String
  status : TransactionStatus
  type : String
  params : String
  result : Option String
  error : Option String
  timestamp : Nat
  confirmationTimestamp : Option Nat
deriving DecidableEq, Repr

/-- `interface TaskRecord` from the source. -/
structure TaskRecord where
  status : TaskStatus
  message : String
  progress : Nat
  result : String
deriving DecidableEq, Repr

/-- Events emitted on the queue's `EventEmitter`, one constructor per
channel used in the source (`transaction:created`, `transaction:updated`,
`transaction:confirmed`, `transaction:failed`, `task:updated`). -/
inductive QEvent where
  | txCreated (rec : TransactionRecord)
  | txUpdated (rec : TransactionRecord)
  | txConfirmed (rec : TransactionRecord)
  | txFailed (rec : TransactionRecord)
  | taskUpdated (id : String) (rec : TaskRecord)
deriving DecidableEq, Repr

/-- The private fields `queue` and `tasks` of `class TransactionQueue`. -/
structure QState where
  queue : JsMap String TransactionRecord
  tasks : JsMap String TaskRecord
deriving DecidableEq, Repr

/-- `maxHistorySize` from the source. -/
def maxHistorySize : Nat := 100

/-- `getTransaction(id)`. -/
def getTransaction (s : QState) (id : String) : Option TransactionRecord :=
  JsMap.get s.queue id

/-- `getAllTransactions()`: `Array.from(this.queue.values())`. -/
def getAllTransactions (s : QState) : List TransactionRecord :=
  JsMap.values s.queue

/-- Insert a record into a list sorted by `timestamp`, keeping it before
strictly larger timestamps and after earlier-inserted equal ones. -/
def insertByTs (x : TransactionRecord) : List TransactionRecord → List TransactionRecord
  | [] => [x]
  | y :: ys => if x.timestamp ≤ y.timestamp then x :: y :: ys else y :: insertByTs x ys

/-- `transactions.sort((a, b) => a.timestamp - b.timestamp)`: JavaScript's
stable sort by timestamp. A stable sort for a total preorder is unique, so
this insertion sort computes it. -/
def sortByTs : List TransactionRecord → List TransactionRecord
  | [] => []
  | x :: xs => insertByTs x (sortByTs xs)

/-- `cleanupOldTransactions()` from the source: when more than
`maxHistorySize` records exist, sort all records by `timestamp` (oldest
first) and delete the excess oldest ones from the queue. -/
def cleanupOldTransactions (s : QState) : QState :=
  let transactions := getAllTransactions s
  if transactions.length ≤ maxHistorySize then s
  else
    let sorted := sortByTs transactions
    let toRemove := sorted.take (sorted.length - maxHistorySize)
    { s with queue := toRemove.foldl (fun q tx => JsMap.del q tx.id) s.queue }

/-- `createTransaction(type, params)`. The generated id and `Date.now()`
are environment inputs, passed as the `id` and `now` arguments. Returns the
new state and the emitted events ( `transaction:created` ). -/
def createTransaction (s : QState) (id ty ps : String) (now : Nat) :
    QState × List QEvent :=
  let transaction : TransactionRecord :=
    { id := id, hash := none, status := .pending, type := ty, params := ps,
      result := none, error := none, timestamp := now, confirmationTimestamp := none }
  ({ s with queue := JsMap.set s.queue id transaction }, [.txCreated transaction])

/-- `setTransactionHash(id, hash)`: no-op when the id is unknown, else set
the hash, move to `confirming` and emit `transaction:updated`. -/
def setTransactionHash (s : QState) (id hash : String) : QState × List QEvent :=
  match JsMap.get s.queue id with
  | none => (s, [])
  | some transaction =>
    let t := { transaction with hash := some hash, status := .confirming }
    ({ s with queue := JsMap.set s.queue id t }, [.txUpdated t])

/-- `confirmTransaction(id, result)`: no-op when the id is unknown, else
set the result and confirmation timestamp, move to `confirmed`, emit
`transaction:confirmed`, then run `cleanupOldTransactions`. -/
def confirmTransaction (s : QState) (id result : String) (now : Nat) :
    QState × List QEvent :=
  match JsMap.get s.queue id with
  | none => (s, [])
  | some transaction =>
    let t := { transaction with
      status := .confirmed, result := some result, confirmationTimestamp := some now }
    let s' := { s with queue := JsMap.set s.queue id t }
    (cleanupOldTransactions s', [.txConfirmed t])

/-- `failTransaction(id, error)`: no-op when the id is unknown, else set
the error, move to `failed` and emit `transaction:failed`. It does not call
`cleanupOldTransactions`. -/
def failTransaction (s : QState) (id err : String) : QState × List QEvent :=
  match JsMap.get s.queue id with
  | none => (s, [])
  | some transaction =>
    let t := { transaction with status := .failed, error := some err }
    ({ s with queue := JsMap.set s.queue id t }, [.txFailed t])

/-- `updateTaskStatus(taskId, taskRecord)`: unconditional `tasks.set`, then
emit `task:updated`. -/
def updateTaskStatus (s : QState) (taskId : String) (taskRecord : TaskRecord) :
    QState × List QEvent :=
  ({ s with tasks := JsMap.set s.tasks taskId taskRecord },
   [.taskUpdated taskId taskRecord])

/-- `getTaskStatus(taskId)`. -/
def getTaskStatus (s : QState) (taskId : String) : Option TaskRecord :=
  JsMap.get s.tasks taskId

/-- `removeTask(taskId)`. -/
def removeTask (s : QState) (taskId : String) : QState :=
  { s with tasks := JsMap.del s.tasks taskId }

/-- `subscribeToTransaction(id, callback)` registers, on the channels
`transaction:updated` / `transaction:confirmed` / `transaction:failed`, a
handler that forwards the event payload to the callback exactly when
`transaction.id === id`. This function computes the record such a handler
is invoked with by one event, if any. -/
def notifiesSub (subId : String) : QEvent → Option TransactionRecord
  | .txUpdated rec => if rec.id = subId then some rec else none
  | .txConfirmed rec => if rec.id = subId then some rec else none
  | .txFailed rec => if rec.id = subId then some rec else none
  | _ => none

/-- The records delivered, in order, to a subscriber for `subId` by a list
of emitted events. -/
def notificationsFor (subId : String) (evs : List QEvent) : List TransactionRecord :=
  evs.filterMap (notifiesSub subId)

/-- One mutator call on a fixed id: `setTransactionHash` /
`confirmTransaction` / `failTransaction` with its payload arguments. -/
inductive MutCall where
  | setHash (hash : String)
  | confirm (result : String) (now : Nat)
  | fail (err : String)
deriving DecidableEq, Repr

/-- `confirmTransaction` and `failTransaction` are the terminal mutators. -/
def MutCall.isTerminal : MutCall → Bool
  | .setHash _ => false
  | .confirm _ _ => true
  | .fail _ => true

/-- Run one mutator call against the state (events discarded). -/
def applyCall (s : QState) (id : String) : MutCall → QState
  | .setHash h => (setTransactionHash s id h).1
  | .confirm r n => (confirmTransaction s id r n).1
  | .fail e => (failTransaction s id e).1

/-- Run a sequence of mutator calls on one id, in order. -/
def applyCalls (s : QState) (id : String) (cs : List MutCall) : QState :=
  cs.foldl (fun s c => applyCall s id c) s

/-- An injective family of transaction ids standing for the distinct
strings of `generateTransactionId`. -/
def idOf (i : Nat) : String := String.mk (List.replicate i 'x')

/-- The record `createTransaction` stores for the `i`-th creation in the
bulk scenarios (type `"t"`, params `"p"`, timestamp `i`). -/
def mkPending (i : Nat) : TransactionRecord :=
  { id := idOf i, hash := none, status := .pending, type := "t", params := "p",
    result := none, error := none, timestamp := i, confirmationTimestamp := none }

/-- The record after `confirmTransaction (idOf i) "r" (1000 + i)` hits
`mkPending i`. -/
def mkConfirmed (i : Nat) : TransactionRecord :=
  { mkPending i with
      status := .confirmed, result := some "r",
      confirmationTimestamp := some (1000 + i) }

/-- Create `n` transactions in a fresh queue: ids `idOf 0 … idOf (n-1)`,
timestamps `0 … n-1`. -/
def createMany (n : Nat) : QState :=
  (List.range n).foldl (fun s i => (createTransaction s (idOf i) "t" "p" i).1) ⟨[], []⟩

/-- Confirm the first `j` created transactions, in creation order. -/
def confirmUpTo (s : QState) (j : Nat) : QState :=
  (List.range j).foldl (fun s i => (confirmTransaction s (idOf i) "r" (1000 + i)).1) s

/-- The C3 scenario: create `100 + k` transactions, then confirm all of
them in creation order. -/
def evictionScenario (k : Nat) : QState :=
  confirmUpTo (createMany (100 + k)) (100 + k)

/-- The store state after the first `j ≥ 1` confirmations in the eviction
scenario: the `k` oldest records are gone, the surviving ids are
`idOf k … idOf (k+99)`, confirmed up to index `j`. -/
def scenarioState (k j : Nat) : QState :=
  ⟨(List.range' k 100).map fun i =>
    (idOf i, if i < j then mkConfirmed i else mkPending i), []⟩

/-- A small concrete store with two created transactions, used as a
concrete input for witnesses. -/
def sampleStore : QState :=
  (createTransaction (createTransaction ⟨[], []⟩ "a" "t" "p" 0).1 "b" "u" "q" 1).1

/-- The record `sampleStore` holds at id `"a"`. -/
def pendingA : TransactionRecord :=
  { id := "a", hash := none, status := .pending, type := "t", params := "p",
    result := none, error := none, timestamp := 0, confirmationTimestamp := none }

/-- A one-record concrete store holding id `"X"`, for witnesses. -/
def storeX : QState := (createTransaction ⟨[], []⟩ "X" "t" "p" 0).1

/-- The record `storeX` holds at id `"X"`. -/
def pendingX : TransactionRecord :=
  { id := "X", hash := none, status := .pending, type := "t", params := "p",
    result := none, error := none, timestamp := 0, confirmationTimestamp := none }

/-- A subscription as registered by `subscribeToTransaction(id, callback)`:
the registered handler keeps the subscribed id and forwards matching
records to the callback. A callback that throws is modelled by
`Except.error`. -/
structure Subscriber where
  subId : String
  cb : TransactionRecord → Except String Unit

/-- Node's `EventEmitter.emit`, inlined: the registered handlers run
synchronously in registration order; each filters on
`transaction.id === id` before calling its callback; a callback exception
aborts the remaining handlers and propagates out of `emit`. Returns the
indices (counted from `i`) of the callbacks that ran, and the first thrown
error, if any. -/
def dispatchFrom (rec : TransactionRecord) : Nat → List Subscriber → List Nat × Option String
  | _, [] => ([], none)
  | i, sub :: rest =>
    if sub.subId = rec.id then
      match sub.cb rec with
      | .ok _ =>
        let r := dispatchFrom rec (i + 1) rest
        (i :: r.1, r.2)
      | .error e => ([i], some e)
    else dispatchFrom rec (i + 1) rest

/-- Emit one record to a list of subscribers, Node semantics. -/
def dispatch (subs : List Subscriber) (rec : TransactionRecord) : List Nat × Option String :=
  dispatchFrom rec 0 subs

/-- `confirmTransaction` with its `emit('transaction:confirmed', …)`
inlined against an explicit subscriber list: the `queue.set` precedes the
emit, and `cleanupOldTransactions()` runs only when no callback threw — a
throw inside the synchronous emit aborts `confirmTransaction` before the
cleanup line and propagates to the caller. Returns the final state, the
indices of the invoked callbacks, and the propagated exception, if any. -/
def confirmTransactionD (s : QState) (id result : String) (now : Nat)
    (subs : List Subscriber) : QState × List Nat × Option String :=
  match JsMap.get s.queue id with
  | none => (s, [], none)
  | some transaction =>
    let t := { transaction with
        status := .confirmed, result := some result,
        confirmationTimestamp := some now }
    let s' := { s with queue := JsMap.set s.queue id t }
    let d := dispatch subs t
    match d.2 with
    | some e => (s', d.1, some e)
    | none => (cleanupOldTransactions s', d.1, none)

/-! ### Reference semantics for record objects

In the source, `queue` stores object references and the mutators mutate
the record object in place (`transaction.hash = hash; …`) before
re-`set`ting the same object, so `getTransaction` hands out a live alias
of the stored record. To state aliasing, records live on an explicit heap
of addresses and the queue maps ids to addresses. -/

structure RefState where
  heap : JsMap Nat TransactionRecord
  queue : JsMap String Nat
  nextAddr : Nat
deriving DecidableEq, Repr

/-- Read the record object behind a reference (address). -/
def derefRec (s : RefState) (a : Nat) : Option TransactionRecord :=
  JsMap.get s.heap a

/-- `createTransaction` in reference semantics: allocate a fresh record
object and bind the id to its address. -/
def createTransactionRef (s : RefState) (id ty ps : String) (now : Nat) :
    RefState × Nat :=
  let transaction : TransactionRecord :=
    { id := id, hash := none, status := .pending, type := ty, params := ps,
      result := none, error := none, timestamp := now, confirmationTimestamp := none }
  (⟨JsMap.set s.heap s.nextAddr transaction,
    JsMap.set s.queue id s.nextAddr, s.nextAddr + 1⟩, s.nextAddr)

/-- `getTransaction(id)` returns `this.queue.get(id)` — the object
reference itself, not a copy of the record. -/
def getTransactionRef (s : RefState) (id : String) : Option Nat :=
  JsMap.get s.queue id

/-- `setTransactionHash` in reference semantics: mutate the record object
in place, then `queue.set` the same reference back. -/
def setTransactionHashRef (s : RefState) (id hash : String) : RefState :=
  match JsMap.get s.queue id with
  | none => s
  | some a =>
    match JsMap.get s.heap a with
    | none => s
    | some transaction =>
      let t := { transaction with hash := some hash, status := .confirming }
      { s with heap := JsMap.set s.heap a t, queue := JsMap.set s.queue id a }

/-- `failTransaction` in reference semantics. -/
def failTransactionRef (s : RefState) (id err : String) : RefState :=
  match JsMap.get s.queue id with
  | none => s
  | some a =>
    match JsMap.get s.heap a with
    | none => s
    | some transaction =>
      let t := { transaction with status := .failed, error := some err }
      { s with heap := JsMap.set s.heap a t, queue := JsMap.set s.queue id a }

/-! ### Lemmas about `JsMap` -/

namespace JsMap

variable {κ α : Type} [DecidableEq κ]

theorem get_set_self (m : JsMap κ α) (k : κ) (v : α) : get (set m k v) k = some v := by
  induction m with
  | nil => simp [get, set]
  | cons p rest ih =>
    obtain ⟨k', w⟩ := p
    by_cases h : k' = k <;> simp [get, set, h, ih]

theorem get_set_ne (m : JsMap κ α) (k k' : κ) (v : α) (h : k' ≠ k) :
    get (set m k v) k' = get m k' := by
  induction m with
  | nil => simp [get, set, Ne.symm h]
  | cons p rest ih =>
    obtain ⟨k'', w⟩ := p
    by_cases hk : k'' = k
    · subst hk
      simp [get, set, Ne.symm h]
    · simp only [set, if_neg hk, get]
      by_cases hk' : k'' = k' <;> simp [hk', ih]

theorem length_set_of_get (m : JsMap κ α) (k : κ) (v w : α) (h : get m k = some v) :
    (set m k w).length = m.length := by
  induction m with
  | nil => simp [get] at h
  | cons p rest ih =>
    obtain ⟨k', u⟩ := p
    by_cases hk : k' = k
    · simp [set, hk]
    · simp only [get, if_neg hk] at h
      simp [set, hk, ih h]

theorem set_of_get_none (m : JsMap κ α) (k : κ) (v : α) (h : get m k = none) :
    set m k v = m ++ [(k, v)] := by
  induction m with
  | nil => simp [set]
  | cons p rest ih =>
    obtain ⟨k', u⟩ := p
    by_cases hk : k' = k
    · simp [get, hk] at h
    · simp only [get, if_neg hk] at h
      simp [set, hk, ih h]

theorem get_mem (m : JsMap κ α) (k : κ) (v : α) (h : get m k = some v) : (k, v) ∈ m := by
  induction m with
  | nil => simp [get] at h
  | cons p rest ih =>
    obtain ⟨k', u⟩ := p
    by_cases hk : k' = k
    · subst hk
      simp [get] at h
      simp [h]
    · simp only [get, if_neg hk] at h
      exact List.mem_cons_of_mem _ (ih h)

end JsMap

/-! ### General lemmas about the queue operations -/

theorem cleanup_of_le (s : QState) (h : s.queue.length ≤ maxHistorySize) :
    cleanupOldTransactions s = s := by
  unfold cleanupOldTransactions getAllTransactions JsMap.values
  simp [List.length_map, h]

/-! ### Sequences of mutator calls on a single id

One value per public mutator of `TransactionQueue` that takes an existing
id, so that properties about arbitrary call sequences can be stated. -/

theorem applyCalls_append (s : QState) (id : String) (l1 l2 : List MutCall) :
    applyCalls s id (l1 ++ l2) = applyCalls (applyCalls s id l1) id l2 := by
  simp [applyCalls, List.foldl_append]

/-- Non-terminal calls (`setTransactionHash`) keep the record present with
`result` and `error` still unset, and keep the queue length. -/
theorem applyCalls_nonterminal (id : String) (pre : List MutCall) :
    ∀ (s : QState) (rec : TransactionRecord),
      (∀ c ∈ pre, c.isTerminal = false) →
      JsMap.get s.queue id = some rec → rec.result = none → rec.error = none →
      ∃ rec', JsMap.get (applyCalls s id pre).queue id = some rec' ∧
        rec'.result = none ∧ rec'.error = none ∧
        (applyCalls s id pre).queue.length = s.queue.length := by
  induction pre with
  | nil => exact fun s rec _ hget hr he => ⟨rec, hget, hr, he, rfl⟩
  | cons c pre ih =>
    intro s rec hnt hget hr he
    cases c with
    | setHash h =>
      have hstep : applyCalls s id (.setHash h :: pre) =
          applyCalls (setTransactionHash s id h).1 id pre := rfl
      rw [hstep]
      have hs1 : (setTransactionHash s id h).1 =
          { s with queue := JsMap.set s.queue id ({ rec with hash := some h, status := .confirming }) } := by
        simp [setTransactionHash, hget]
      rw [hs1]
      obtain ⟨rec', hget', hr', he', hlen'⟩ :=
        ih { s with queue := JsMap.set s.queue id ({ rec with hash := some h, status := .confirming }) }
          ({ rec with hash := some h, status := .confirming })
          (fun c hc => hnt c (List.mem_cons_of_mem _ hc))
          (JsMap.get_set_self s.queue id _) hr he
      exact ⟨rec', hget', hr', he',
        by rw [hlen']
           exact JsMap.length_set_of_get s.queue id rec _ hget⟩
    | confirm r n => exact absurd (hnt _ (List.mem_cons_self _ _)) (by simp [MutCall.isTerminal])
    | fail e => exact absurd (hnt _ (List.mem_cons_self _ _)) (by simp [MutCall.isTerminal])

/-! ### Claim theorems -/

/-- C1 counterexample: starting from a freshly created record `"a"`, the
mutator sequence `confirmTransaction; failTransaction` (which contains at
least one terminal call) leaves the stored record in state `failed` with
BOTH `result` and `error` populated, contradicting the claimed
output-xor-failure invariant. -/
theorem c1_counterexample :
    (getTransaction
        (applyCalls (createTransaction ⟨[], []⟩ "a" "t" "p" 0).1 "a"
          [.confirm "r" 1, .fail "e"]) "a").map
      (fun r => (r.status, r.result, r.error)) =
      some (.failed, some "r", some "e") := by
  decide

/-- C1 (amended): for a record whose `result` and `error` are still unset,
and a store holding at most `maxHistorySize` records, any sequence of
mutator calls on its id whose only terminal call is the final one leaves
the stored record in exactly that call's terminal state with exactly the
matching field populated: a final `confirmTransaction r` ends `confirmed`
with `result = some r` and `error` unset; a final `failTransaction e` ends
`failed` with `error = some e` and `result` unset. -/
theorem c1_amended_exactly_once_terminal (s : QState) (id : String)
    (rec : TransactionRecord) (pre : List MutCall) (t : MutCall)
    (hget : getTransaction s id = some rec)
    (hres : rec.result = none) (herr : rec.error = none)
    (hlen : s.queue.length ≤ maxHistorySize)
    (hpre : ∀ c ∈ pre, c.isTerminal = false)
    (hterm : t.isTerminal = true) :
    ∃ rec', getTransaction (applyCalls s id (pre ++ [t])) id = some rec' ∧
      (rec'.status = .confirmed ∨ rec'.status = .failed) ∧
      ((rec'.result ≠ none ∧ rec'.error = none) ∨
       (rec'.result = none ∧ rec'.error ≠ none)) ∧
      (∀ r n, t = .confirm r n →
        rec'.status = .confirmed ∧ rec'.result = some r ∧ rec'.error = none) ∧
      (∀ e, t = .fail e →
        rec'.status = .failed ∧ rec'.error = some e ∧ rec'.result = none) := by
  rw [applyCalls_append]
  obtain ⟨rec', hget', hr', he', hlen'⟩ :=
    applyCalls_nonterminal id pre s rec hpre hget hres herr
  set s1 := applyCalls s id pre with hs1
  cases t with
  | setHash h => simp [MutCall.isTerminal] at hterm
  | confirm r n =>
    have hstep : applyCalls s1 id [.confirm r n] = (confirmTransaction s1 id r n).1 := rfl
    rw [hstep]
    have hconf : (confirmTransaction s1 id r n).1 =
        cleanupOldTransactions
          { s1 with queue := JsMap.set s1.queue id ({ rec' with status := .confirmed, result := some r, confirmationTimestamp := some n }) } := by
      simp [confirmTransaction, hget']
    rw [hconf, cleanup_of_le]
    · refine ⟨{ rec' with status := .confirmed, result := some r, confirmationTimestamp := some n },
        JsMap.get_set_self s1.queue id _, Or.inl rfl,
        Or.inl ⟨by simp, by simpa using he'⟩, ?_, ?_⟩
      · intro r' n' heq
        injection heq with h1 h2
        subst h1
        exact ⟨rfl, rfl, by simpa using he'⟩
      · intro e' heq
        simp at heq
    · simpa [JsMap.length_set_of_get s1.queue id rec' _ hget', hlen'] using hlen
  | fail e =>
    have hstep : applyCalls s1 id [.fail e] = (failTransaction s1 id e).1 := rfl
    rw [hstep]
    have hfail : (failTransaction s1 id e).1 =
        { s1 with queue := JsMap.set s1.queue id ({ rec' with status := .failed, error := some e }) } := by
      simp [failTransaction, hget']
    rw [hfail]
    refine ⟨{ rec' with status := .failed, error := some e },
      JsMap.get_set_self s1.queue id _, Or.inr rfl,
      Or.inr ⟨by simpa using hr', by simp⟩, ?_, ?_⟩
    · intro r' n' heq
      simp at heq
    · intro e' heq
      injection heq with h1
      subst h1
      exact ⟨rfl, rfl, by simpa using hr'⟩

/-- Witness for C1 (amended) at a concrete input: one freshly created
record, one `setTransactionHash` call, then one final `confirmTransaction`. -/
theorem c1_amended_witness :
    ∃ rec', getTransaction
        (applyCalls (createTransaction ⟨[], []⟩ "a" "t" "p" 0).1 "a"
          [.setHash "0xabc", .confirm "r" 5]) "a" = some rec' ∧
      (rec'.status = .confirmed ∨ rec'.status = .failed) ∧
      ((rec'.result ≠ none ∧ rec'.error = none) ∨
       (rec'.result = none ∧ rec'.error ≠ none)) ∧
      (∀ r n, (MutCall.confirm "r" 5 : MutCall) = .confirm r n →
        rec'.status = .confirmed ∧ rec'.result = some r ∧ rec'.error = none) ∧
      (∀ e, (MutCall.confirm "r" 5 : MutCall) = .fail e →
        rec'.status = .failed ∧ rec'.error = some e ∧ rec'.result = none) :=
  c1_amended_exactly_once_terminal (createTransaction ⟨[], []⟩ "a" "t" "p" 0).1 "a"
    { id := "a", hash := none, status := .pending, type := "t", params := "p",
      result := none, error := none, timestamp := 0, confirmationTimestamp := none }
    [.setHash "0xabc"] (.confirm "r" 5) rfl rfl rfl (by decide)
    (by decide) rfl

/-- C4: every mutator called on an id that is not in the queue returns
normally, emits no event, and leaves the whole state (both the transaction
queue and the task map) unchanged. -/
theorem c4_unknown_id_noop (s : QState) (id hash result err : String) (now : Nat)
    (h : getTransaction s id = none) :
    setTransactionHash s id hash = (s, []) ∧
    confirmTransaction s id result now = (s, []) ∧
    failTransaction s id err = (s, []) := by
  unfold getTransaction at h
  exact ⟨by simp [setTransactionHash, h], by simp [confirmTransaction, h],
    by simp [failTransaction, h]⟩

/-- Witness for C4 at a concrete input: a store holding only `"b"`,
mutated at the unknown id `"a"`. -/
theorem c4_witness :
    getTransaction (createTransaction ⟨[], []⟩ "b" "t" "p" 0).1 "a" = none ∧
    (setTransactionHash (createTransaction ⟨[], []⟩ "b" "t" "p" 0).1 "a" "h" =
      ((createTransaction ⟨[], []⟩ "b" "t" "p" 0).1, []) ∧
     confirmTransaction (createTransaction ⟨[], []⟩ "b" "t" "p" 0).1 "a" "r" 1 =
      ((createTransaction ⟨[], []⟩ "b" "t" "p" 0).1, []) ∧
     failTransaction (createTransaction ⟨[], []⟩ "b" "t" "p" 0).1 "a" "e" =
      ((createTransaction ⟨[], []⟩ "b" "t" "p" 0).1, [])) :=
  ⟨rfl, c4_unknown_id_noop (createTransaction ⟨[], []⟩ "b" "t" "p" 0).1 "a" "h" "r" "e" 1 rfl⟩

/-- C8: `updateTaskStatus` is a whole-record overwrite, and an upsert: two
sequential updates leave exactly the second record (never a merge), and an
update on an unknown id creates the entry. -/
theorem c8_progress_overwrite (s : QState) (id : String) (r1 r2 : TaskRecord) :
    getTaskStatus (updateTaskStatus (updateTaskStatus s id r1).1 id r2).1 id = some r2 ∧
    ∀ (s' : QState) (id' : String) (r : TaskRecord),
      getTaskStatus (updateTaskStatus s' id' r).1 id' = some r := by
  refine ⟨?_, fun s' id' r => ?_⟩ <;>
    simp [getTaskStatus, updateTaskStatus, JsMap.get_set_self]

/-- C9: `setTransactionHash` on a record already in a terminal state
(`confirmed` or `failed`) moves it back to the non-terminal state
`confirming`, leaving its `result` and `error` fields exactly as they were. -/
theorem c9_terminal_regression (s : QState) (id hash : String)
    (rec : TransactionRecord) (hget : getTransaction s id = some rec)
    (hterm : rec.status = .confirmed ∨ rec.status = .failed) :
    getTransaction (setTransactionHash s id hash).1 id =
      some { rec with hash := some hash, status := .confirming } ∧
    ({ rec with hash := some hash, status := .confirming } : TransactionRecord).result
      = rec.result ∧
    ({ rec with hash := some hash, status := .confirming } : TransactionRecord).error
      = rec.error := by
  unfold getTransaction at hget ⊢
  refine ⟨?_, rfl, rfl⟩
  simp [setTransactionHash, hget, JsMap.get_set_self]

/-- Witness for C9 at a concrete input: a record confirmed with a result,
then hit with `setTransactionHash`. -/
theorem c9_witness :
    getTransaction
        (confirmTransaction (createTransaction ⟨[], []⟩ "a" "t" "p" 0).1 "a" "r" 1).1 "a" =
      some { id := "a", hash := none, status := .confirmed, type := "t", params := "p",
             result := some "r", error := none, timestamp := 0,
             confirmationTimestamp := some 1 } ∧
    (({ id := "a", hash := none, status := .confirmed, type := "t", params := "p",
        result := some "r", error := none, timestamp := 0,
        confirmationTimestamp := some 1 } : TransactionRecord).status = .confirmed ∨
     ({ id := "a", hash := none, status := .confirmed, type := "t", params := "p",
        result := some "r", error := none, timestamp := 0,
        confirmationTimestamp := some 1 } : TransactionRecord).status = .failed) ∧
    (getTransaction
        (setTransactionHash
          (confirmTransaction (createTransaction ⟨[], []⟩ "a" "t" "p" 0).1 "a" "r" 1).1
          "a" "0xh").1 "a" =
      some { id := "a", hash := some "0xh", status := .confirming, type := "t",
             params := "p", result := some "r", error := none, timestamp := 0,
             confirmationTimestamp := some 1 }) :=
  ⟨by decide, Or.inl rfl,
    ((c9_terminal_regression
      (confirmTransaction (createTransaction ⟨[], []⟩ "a" "t" "p" 0).1 "a" "r" 1).1
      "a" "0xh"
      { id := "a", hash := none, status := .confirmed, type := "t", params := "p",
        result := some "r", error := none, timestamp := 0,
        confirmationTimestamp := some 1 }
      (by decide) (Or.inl rfl)).1)⟩

/-! ### Eviction machinery: sorting, cleanup, and concrete scenarios -/

theorem insertByTs_of_le (x : TransactionRecord) (l : List TransactionRecord)
    (h : ∀ y ∈ l, x.timestamp ≤ y.timestamp) : insertByTs x l = x :: l := by
  cases l with
  | nil => rfl
  | cons y ys => simp [insertByTs, h y (List.mem_cons_self _ _)]

theorem sortByTs_of_pairwise (l : List TransactionRecord)
    (h : l.Pairwise fun a b => a.timestamp ≤ b.timestamp) : sortByTs l = l := by
  induction l with
  | nil => rfl
  | cons x xs ih =>
    rw [List.pairwise_cons] at h
    simp only [sortByTs, ih h.2]
    exact insertByTs_of_le x xs h.1

/-- Deleting, in order, the first `j` record values of a well-formed queue
(entry key = record id) drops exactly its first `j` entries. -/
theorem foldl_del_take (q : JsMap String TransactionRecord)
    (hwf : ∀ p ∈ q, p.2.id = p.1) (j : Nat) :
    ((q.map Prod.snd).take j).foldl (fun m tx => JsMap.del m tx.id) q = q.drop j := by
  induction q generalizing j with
  | nil => simp
  | cons p rest ih =>
    obtain ⟨k, v⟩ := p
    cases j with
    | zero => rfl
    | succ j =>
      have hk : v.id = k := hwf (k, v) (List.mem_cons_self _ _)
      have hdel : JsMap.del ((k, v) :: rest) v.id = rest := by
        simp [JsMap.del, hk]
      simp only [List.map_cons, List.take_succ_cons, List.foldl_cons, hdel,
        List.drop_succ_cons]
      exact ih (fun p hp => hwf p (List.mem_cons_of_mem _ hp)) j

/-- On a well-formed queue whose records are already in `timestamp` order,
`cleanupOldTransactions` drops exactly the oldest entries beyond
`maxHistorySize` (and is the identity when within the bound). -/
theorem cleanup_eq_drop (s : QState) (hwf : ∀ p ∈ s.queue, p.2.id = p.1)
    (hsorted : (s.queue.map Prod.snd).Pairwise fun a b => a.timestamp ≤ b.timestamp) :
    cleanupOldTransactions s =
      { s with queue := s.queue.drop (s.queue.length - maxHistorySize) } := by
  by_cases hle : s.queue.length ≤ maxHistorySize
  · rw [cleanup_of_le s hle]
    have : s.queue.length - maxHistorySize = 0 := by omega
    rw [this, List.drop_zero]
  · unfold cleanupOldTransactions getAllTransactions JsMap.values
    rw [if_neg (by simpa [List.length_map] using hle)]
    rw [sortByTs_of_pairwise _ hsorted]
    simp only [List.length_map]
    exact congrArg (fun q => { s with queue := q }) (foldl_del_take s.queue hwf _)

theorem wf_set (q : JsMap String TransactionRecord) (k : String)
    (t : TransactionRecord) (ht : t.id = k) :
    (∀ p ∈ q, p.2.id = p.1) → ∀ p ∈ JsMap.set q k t, p.2.id = p.1 := by
  induction q with
  | nil => intro _ x hx; simp only [JsMap.set, List.mem_singleton] at hx; subst hx; exact ht
  | cons p rest ih =>
    obtain ⟨k', v⟩ := p
    intro hwf x hx
    by_cases hk : k' = k
    · subst hk
      simp only [JsMap.set, if_true, eq_self_iff_true, ite_true, List.mem_cons] at hx
      rcases hx with hx | hx
      · subst hx; exact ht
      · exact hwf x (List.mem_cons_of_mem _ hx)
    · simp only [JsMap.set, if_neg hk, List.mem_cons] at hx
      rcases hx with hx | hx
      · subst hx; exact hwf (k', v) (List.mem_cons_self _ _)
      · exact ih (fun p hp => hwf p (List.mem_cons_of_mem _ hp)) x hx

theorem mem_values_set {κ α : Type} [DecidableEq κ] (q : JsMap κ α) (k : κ) (t x : α) :
    x ∈ (JsMap.set q k t).map Prod.snd → x = t ∨ x ∈ q.map Prod.snd := by
  induction q with
  | nil => intro hx; simpa [JsMap.set] using hx
  | cons p rest ih =>
    obtain ⟨k', v⟩ := p
    intro hx
    by_cases hk : k' = k
    · simp only [JsMap.set, if_pos hk, List.map_cons, List.mem_cons] at hx
      rcases hx with hx | hx
      · exact Or.inl hx
      · exact Or.inr (by simp [hx])
    · simp only [JsMap.set, if_neg hk, List.map_cons, List.mem_cons] at hx
      rcases hx with hx | hx
      · exact Or.inr (by simp [hx])
      · rcases ih hx with h | h
        · exact Or.inl h
        · exact Or.inr (by simp [h])

/-- Overwriting a present key with a record of the same timestamp keeps the
values sorted by timestamp. -/
theorem pairwise_values_set (q : JsMap String TransactionRecord) (k : String)
    (rec t : TransactionRecord) (hget : JsMap.get q k = some rec)
    (hts : t.timestamp = rec.timestamp)
    (hp : (q.map Prod.snd).Pairwise fun a b => a.timestamp ≤ b.timestamp) :
    ((JsMap.set q k t).map Prod.snd).Pairwise fun a b => a.timestamp ≤ b.timestamp := by
  induction q with
  | nil => simp [JsMap.get] at hget
  | cons p rest ih =>
    obtain ⟨k', v⟩ := p
    simp only [List.map_cons, List.pairwise_cons] at hp
    by_cases hk : k' = k
    · have hv : v = rec := by
        simpa [JsMap.get, hk] using hget
      subst hv
      simp only [JsMap.set, if_pos hk, List.map_cons, List.pairwise_cons]
      exact ⟨fun y hy => hts ▸ hp.1 y hy, hp.2⟩
    · simp only [JsMap.get, if_neg hk] at hget
      simp only [JsMap.set, if_neg hk, List.map_cons, List.pairwise_cons]
      refine ⟨fun y hy => ?_, ih hget hp.2⟩
      rcases mem_values_set rest k t y hy with h | h
      · subst h
        rw [hts]
        exact hp.1 rec (by simpa using List.mem_map_of_mem Prod.snd (JsMap.get_mem rest k rec hget))
      · exact hp.1 y h

theorem failTransaction_length (s : QState) (id err : String) :
    ((failTransaction s id err).1).queue.length = s.queue.length := by
  cases hget : JsMap.get s.queue id with
  | none => simp [failTransaction, hget]
  | some rec =>
    simp only [failTransaction, hget]
    exact JsMap.length_set_of_get s.queue id rec _ hget

/-! ### Concrete creation/confirmation scenarios

`generateTransactionId` produces distinct opaque strings and `Date.now()`
is non-decreasing, so bulk scenarios use the injective id family `idOf`
and the logical timestamps `0, 1, 2, …` for creation and `1000 + i` for
confirmation. -/

theorem idOf_injective : Function.Injective idOf := by
  intro i j h
  have := congrArg String.length h
  simpa [idOf, String.length] using this

theorem get_map_of_not_mem (g : Nat → TransactionRecord) (l : List Nat) (j : Nat)
    (h : j ∉ l) :
    JsMap.get (l.map fun i => (idOf i, g i)) (idOf j) = none := by
  induction l with
  | nil => rfl
  | cons i l ih =>
    have hij : idOf i ≠ idOf j := fun he =>
      h (by simp [idOf_injective he])
    simp only [List.map_cons, JsMap.get, if_neg hij]
    exact ih fun hl => h (List.mem_cons_of_mem _ hl)

theorem get_map_of_mem (g : Nat → TransactionRecord) (l : List Nat) (j : Nat)
    (h : j ∈ l) :
    JsMap.get (l.map fun i => (idOf i, g i)) (idOf j) = some (g j) := by
  induction l with
  | nil => simp at h
  | cons i l ih =>
    by_cases hij : i = j
    · subst hij
      simp [JsMap.get]
    · have hne : idOf i ≠ idOf j := fun he => hij (idOf_injective he)
      simp only [List.map_cons, JsMap.get, if_neg hne]
      exact ih (by rcases List.mem_cons.mp h with h | h; exact absurd h.symm hij; exact h)

theorem set_map_of_mem (g : Nat → TransactionRecord) (l : List Nat) (j : Nat)
    (v : TransactionRecord) (h : j ∈ l) (hn : l.Nodup) :
    JsMap.set (l.map fun i => (idOf i, g i)) (idOf j) v =
      l.map fun i => (idOf i, if i = j then v else g i) := by
  induction l with
  | nil => simp at h
  | cons i l ih =>
    rw [List.nodup_cons] at hn
    by_cases hij : i = j
    · subst hij
      simp only [List.map_cons, JsMap.set, if_true, eq_self_iff_true, ite_true]
      congr 1
      refine (List.map_congr_left fun x hx => ?_).symm
      have : x ≠ i := fun he => hn.1 (he ▸ hx)
      simp [this]
    · have hne : idOf i ≠ idOf j := fun he => hij (idOf_injective he)
      simp only [List.map_cons, JsMap.set, if_neg hne, if_neg hij]
      congr 1
      exact ih (by rcases List.mem_cons.mp h with h | h; exact absurd h.symm hij; exact h) hn.2

/-- The queue after `createMany n`: the `n` pending records in creation
order, with the task map empty. -/
theorem createMany_queue (n : Nat) :
    createMany n = ⟨(List.range n).map fun i => (idOf i, mkPending i), []⟩ := by
  induction n with
  | zero => rfl
  | succ n ih =>
    have h1 : createMany (n + 1) = (createTransaction (createMany n) (idOf n) "t" "p" n).1 := by
      simp [createMany, List.range_succ, List.foldl_append]
    rw [h1, ih]
    have hfresh : JsMap.get ((List.range n).map fun i => (idOf i, mkPending i)) (idOf n) = none :=
      get_map_of_not_mem _ _ _ (by simp)
    simp only [createTransaction]
    rw [JsMap.set_of_get_none _ _ _ hfresh, List.range_succ, List.map_append]
    rfl

theorem confirmUpTo_succ (s : QState) (j : Nat) :
    confirmUpTo s (j + 1) =
      (confirmTransaction (confirmUpTo s j) (idOf j) "r" (1000 + j)).1 := by
  simp [confirmUpTo, List.range_succ, List.foldl_append]

theorem confirmUpTo_one (k : Nat) (hk : 1 ≤ k) :
    confirmUpTo (createMany (100 + k)) 1 = scenarioState k 1 := by
  have h0 : confirmUpTo (createMany (100 + k)) 1 =
      (confirmTransaction (createMany (100 + k)) (idOf 0) "r" (1000 + 0)).1 :=
    confirmUpTo_succ _ 0
  rw [h0, createMany_queue]
  have hget : JsMap.get ((List.range (100 + k)).map fun i => (idOf i, mkPending i)) (idOf 0) =
      some (mkPending 0) :=
    get_map_of_mem _ _ _ (List.mem_range.mpr (by omega))
  simp only [confirmTransaction, hget]
  rw [set_map_of_mem _ _ _ _ (List.mem_range.mpr (by omega)) (List.nodup_range (100 + k))]
  have hwf1 : ∀ p ∈ (List.range (100 + k)).map fun i =>
      (idOf i, if i = 0 then
        ({ mkPending 0 with
            status := .confirmed, result := some "r",
            confirmationTimestamp := some (1000 + 0) } : TransactionRecord)
      else mkPending i), p.2.id = p.1 := by
    intro p hp
    obtain ⟨i, hi, rfl⟩ := List.mem_map.mp hp
    by_cases h0 : i = 0
    · subst h0; simp [mkPending]
    · simp [h0, mkPending]
  have hts : ∀ i, ((if i = 0 then
      ({ mkPending 0 with
          status := .confirmed, result := some "r",
          confirmationTimestamp := some (1000 + 0) } : TransactionRecord)
    else mkPending i)).timestamp = i := by
    intro i
    by_cases h0 : i = 0
    · subst h0; simp [mkPending]
    · simp [h0, mkPending]
  have hsorted1 : (((List.range (100 + k)).map fun i =>
      (idOf i, if i = 0 then
        ({ mkPending 0 with
            status := .confirmed, result := some "r",
            confirmationTimestamp := some (1000 + 0) } : TransactionRecord)
      else mkPending i)).map Prod.snd).Pairwise
        (fun a b => a.timestamp ≤ b.timestamp) := by
    rw [List.map_map, List.pairwise_map]
    exact (List.pairwise_le_range (100 + k)).imp fun {a b} hab => by
      simpa [hts] using hab
  rw [cleanup_eq_drop _ hwf1 hsorted1]
  have hlen1 : (((List.range (100 + k)).map fun i =>
      (idOf i, if i = 0 then
        ({ mkPending 0 with
            status := .confirmed, result := some "r",
            confirmationTimestamp := some (1000 + 0) } : TransactionRecord)
      else mkPending i)).length) = 100 + k := by
    simp
  have hsplit : List.range (100 + k) = List.range' 0 k ++ List.range' k 100 := by
    rw [List.range_eq_range', ← List.range'_append_1 0 k 100]
    norm_num
  unfold scenarioState
  simp only [hlen1]
  have harith : 100 + k - maxHistorySize = k := by
    simp only [maxHistorySize]; omega
  rw [harith, hsplit, List.map_append,
    List.drop_left' (by simp : (((List.range' 0 k).map fun i =>
      (idOf i, if i = 0 then
        ({ mkPending 0 with
            status := .confirmed, result := some "r",
            confirmationTimestamp := some (1000 + 0) } : TransactionRecord)
      else mkPending i)).length) = k)]
  refine congrArg (fun q => QState.mk q []) (List.map_congr_left fun i hi => ?_)
  have hik : k ≤ i := (List.mem_range'_1.mp hi).1
  have hne0 : i ≠ 0 := by omega
  have hlt1 : ¬ i < 1 := by omega
  simp [hne0, hlt1]

theorem scenarioState_succ_of_lt (k j : Nat) (hjk : j < k) :
    scenarioState k j = scenarioState k (j + 1) := by
  unfold scenarioState
  refine congrArg (fun q => QState.mk q []) (List.map_congr_left fun i hi => ?_)
  have hik : k ≤ i := (List.mem_range'_1.mp hi).1
  have h1 : ¬ i < j := by omega
  have h2 : ¬ i < j + 1 := by omega
  simp [h1, h2]

theorem confirmUpTo_step (k j : Nat) (h1 : 1 ≤ j) (h2 : j < 100 + k)
    (prev : confirmUpTo (createMany (100 + k)) j = scenarioState k j) :
    confirmUpTo (createMany (100 + k)) (j + 1) = scenarioState k (j + 1) := by
  rw [confirmUpTo_succ, prev]
  by_cases hjk : j < k
  · have hget : JsMap.get (scenarioState k j).queue (idOf j) = none := by
      unfold scenarioState
      exact get_map_of_not_mem _ _ _ (by
        simp only [List.mem_range'_1, not_and, not_lt]
        omega)
    simp only [confirmTransaction, hget]
    exact scenarioState_succ_of_lt k j hjk
  · push_neg at hjk
    have hmem : j ∈ List.range' k 100 := List.mem_range'_1.mpr ⟨hjk, by omega⟩
    have hget : JsMap.get (scenarioState k j).queue (idOf j) = some (mkPending j) := by
      unfold scenarioState
      have h := get_map_of_mem (fun i => if i < j then mkConfirmed i else mkPending i) _ j hmem
      simpa [Nat.lt_irrefl] using h
    simp only [confirmTransaction, hget]
    rw [show (scenarioState k j).queue = (List.range' k 100).map
        (fun i => (idOf i, if i < j then mkConfirmed i else mkPending i)) from rfl]
    rw [set_map_of_mem _ _ _ _ hmem (List.nodup_range' k 100)]
    rw [cleanup_of_le _ (by simp [maxHistorySize])]
    unfold scenarioState
    refine congrArg (fun q => QState.mk q []) (List.map_congr_left fun i hi => ?_)
    by_cases hij : i = j
    · subst hij
      simp [mkConfirmed, Nat.lt_succ_self]
    · by_cases hlt : i < j
      · simp [hij, hlt, show i < j + 1 by omega]
      · simp [hij, hlt, show ¬ i < j + 1 by omega]

/-- After the first `j` confirmations (1 ≤ j ≤ 100 + k), the store is
exactly `scenarioState k j`. -/
theorem confirmUpTo_inv (k : Nat) (hk : 1 ≤ k) :
    ∀ j, 1 ≤ j → j ≤ 100 + k →
      confirmUpTo (createMany (100 + k)) j = scenarioState k j := by
  intro j h1
  induction j, h1 using Nat.le_induction with
  | base => exact fun _ => confirmUpTo_one k hk
  | succ j hj ih =>
    intro h2
    exact confirmUpTo_step k j hj (by omega) (ih (by omega))

/-- C2 counterexample: starting from 101 created records (a reachable
state), `failTransaction` on a present id mutates the record but leaves
all 101 records in the store — the count stays above `maxHistorySize`, so
`failTransaction` does not trigger the claimed cleanup. -/
theorem c2_counterexample :
    getTransaction ((failTransaction (createMany 101) (idOf 0) "boom").1) (idOf 0) =
      some ({ mkPending 0 with status := .failed, error := some "boom" }) ∧
    ((failTransaction (createMany 101) (idOf 0) "boom").1).queue.length = 101 ∧
    maxHistorySize < 101 := by
  refine ⟨?_, ?_, by norm_num [maxHistorySize]⟩
  · rw [createMany_queue]
    have hget : JsMap.get ((List.range 101).map fun i => (idOf i, mkPending i)) (idOf 0) =
        some (mkPending 0) := get_map_of_mem _ _ _ (List.mem_range.mpr (by omega))
    unfold getTransaction
    simp only [failTransaction, hget]
    exact JsMap.get_set_self _ _ _
  · rw [failTransaction_length, createMany_queue]
    simp

/-- C2 (amended): only `confirmTransaction` triggers the history cleanup.
On a well-formed store in creation-time order holding the id,
`confirmTransaction` updates the record and then drops exactly the
oldest-by-`timestamp` records beyond `maxHistorySize`; `failTransaction`
never changes the record count. -/
theorem c2_amended_cleanup_only_on_confirm (s : QState) (id result : String)
    (now : Nat) (rec : TransactionRecord)
    (hwf : ∀ p ∈ s.queue, p.2.id = p.1)
    (hsorted : (s.queue.map Prod.snd).Pairwise fun a b => a.timestamp ≤ b.timestamp)
    (hget : getTransaction s id = some rec) :
    (confirmTransaction s id result now).1 =
      QState.mk
        ((JsMap.set s.queue id
          ({ rec with
              status := .confirmed, result := some result,
              confirmationTimestamp := some now })).drop
          (s.queue.length - maxHistorySize))
        s.tasks ∧
    ∀ (s2 : QState) (id2 e2 : String),
      ((failTransaction s2 id2 e2).1).queue.length = s2.queue.length := by
  refine ⟨?_, fun s2 id2 e2 => failTransaction_length s2 id2 e2⟩
  have hget' : JsMap.get s.queue id = some rec := hget
  have hid : rec.id = id := hwf (id, rec) (JsMap.get_mem _ _ _ hget')
  simp only [confirmTransaction, hget']
  have hdrop := cleanup_eq_drop
    (QState.mk
      (JsMap.set s.queue id
        ({ rec with
            status := .confirmed, result := some result,
            confirmationTimestamp := some now }))
      s.tasks)
    (wf_set s.queue id _ (by simpa using hid) hwf)
    (pairwise_values_set s.queue id rec _ hget' rfl hsorted)
  rw [hdrop]
  have hlen : (JsMap.set s.queue id
      ({ rec with
          status := .confirmed, result := some result,
          confirmationTimestamp := some now })).length = s.queue.length :=
    JsMap.length_set_of_get s.queue id rec _ hget'
  simp only [hlen]

/-- Witness for C2 (amended) at a concrete input: a two-record store,
confirming id `"a"` (no eviction needed, drop count zero). -/
theorem c2_witness :
    (∀ p ∈ sampleStore.queue, p.2.id = p.1) ∧
    ((sampleStore.queue.map Prod.snd).Pairwise fun a b => a.timestamp ≤ b.timestamp) ∧
    getTransaction sampleStore "a" = some pendingA ∧
    ((confirmTransaction sampleStore "a" "ok" 5).1 =
      QState.mk
        ((JsMap.set sampleStore.queue "a"
          ({ pendingA with
              status := .confirmed, result := some "ok",
              confirmationTimestamp := some 5 })).drop
          (sampleStore.queue.length - maxHistorySize))
        sampleStore.tasks ∧
     ∀ (s2 : QState) (id2 e2 : String),
       ((failTransaction s2 id2 e2).1).queue.length = s2.queue.length) :=
  ⟨by decide, by decide, rfl,
    c2_amended_cleanup_only_on_confirm sampleStore "a" "ok" 5 pendingA
      (by decide) (by decide) rfl⟩

/-- C3: creating `100 + k` operations (k ≥ 1) and then confirming all of
them leaves exactly `maxHistorySize` records; the `k` oldest-by-timestamp
records are gone, and each surviving record is present and confirmed. -/
theorem c3_eviction_bound (k : Nat) (hk : 1 ≤ k) :
    (getAllTransactions (evictionScenario k)).length = maxHistorySize ∧
    (∀ i, i < k → getTransaction (evictionScenario k) (idOf i) = none) ∧
    (∀ i, k ≤ i → i < 100 + k →
      getTransaction (evictionScenario k) (idOf i) = some (mkConfirmed i)) := by
  have h : evictionScenario k = scenarioState k (100 + k) :=
    confirmUpTo_inv k hk (100 + k) (by omega) le_rfl
  refine ⟨?_, fun i hi => ?_, fun i hik hi => ?_⟩
  · rw [h]
    simp [getAllTransactions, JsMap.values, scenarioState, maxHistorySize]
  · rw [h]
    unfold getTransaction scenarioState
    exact get_map_of_not_mem
      (fun i => if i < 100 + k then mkConfirmed i else mkPending i)
      (List.range' k 100) i (by
        simp only [List.mem_range'_1, not_and, not_lt]
        omega)
  · rw [h]
    unfold getTransaction scenarioState
    have hg := get_map_of_mem (fun i => if i < 100 + k then mkConfirmed i else mkPending i)
      (List.range' k 100) i (List.mem_range'_1.mpr ⟨hik, by omega⟩)
    simpa [hi] using hg

/-- Witness for C3 at the concrete input k = 1. -/
theorem c3_witness :
    1 ≤ 1 ∧
    ((getAllTransactions (evictionScenario 1)).length = maxHistorySize ∧
     (∀ i, i < 1 → getTransaction (evictionScenario 1) (idOf i) = none) ∧
     (∀ i, 1 ≤ i → i < 100 + 1 →
       getTransaction (evictionScenario 1) (idOf i) = some (mkConfirmed i))) :=
  ⟨le_rfl, c3_eviction_bound 1 le_rfl⟩

/-- C10: `createTransaction` never touches any other record and never
triggers eviction: creating `100 + k` operations (k ≥ 1) with no
confirmation leaves all `100 + k` records present. -/
theorem c10_create_never_evicts (s : QState) (id ty ps id2 : String) (now k : Nat)
    (hne : id2 ≠ id) (hk : 1 ≤ k) :
    getTransaction (createTransaction s id ty ps now).1 id2 = getTransaction s id2 ∧
    (createMany (100 + k)).queue.length = 100 + k ∧
    ∀ i, i < 100 + k → getTransaction (createMany (100 + k)) (idOf i) = some (mkPending i) := by
  refine ⟨?_, ?_, fun i hi => ?_⟩
  · unfold getTransaction
    simp only [createTransaction]
    exact JsMap.get_set_ne s.queue id id2 _ hne
  · rw [createMany_queue]
    simp
  · unfold getTransaction
    rw [createMany_queue]
    exact get_map_of_mem _ _ _ (List.mem_range.mpr hi)

/-- Witness for C10 at a concrete input: one creation next to an existing
record, and the flooding scenario at k = 1. -/
theorem c10_witness :
    ("b" : String) ≠ "a" ∧ 1 ≤ 1 ∧
    (getTransaction (createTransaction ⟨[], []⟩ "a" "t" "p" 0).1 "b" =
      getTransaction (⟨[], []⟩ : QState) "b" ∧
     (createMany (100 + 1)).queue.length = 100 + 1 ∧
     ∀ i, i < 100 + 1 →
       getTransaction (createMany (100 + 1)) (idOf i) = some (mkPending i)) :=
  ⟨by decide, le_rfl,
    c10_create_never_evicts ⟨[], []⟩ "a" "t" "p" "b" 0 1 (by decide) le_rfl⟩

/-- C5: a subscriber to id `X` receives exactly two notifications from
`setTransactionHash(X, …)` followed by `confirmTransaction(X, …)` — the
first showing state `confirming`, the second `confirmed` — and receives
zero notifications from any mutator called on a different id `Y`, and none
from `createTransaction`. -/
theorem c5_notification_fidelity (s : QState)
    (X Y Z hash hash2 result result2 err2 ty ps : String)
    (rec : TransactionRecord) (now now2 n3 : Nat)
    (hwf : ∀ p ∈ s.queue, p.2.id = p.1)
    (hX : getTransaction s X = some rec) (hYX : Y ≠ X) :
    notificationsFor X
        ((setTransactionHash s X hash).2 ++
         (confirmTransaction (setTransactionHash s X hash).1 X result now).2) =
      [{ rec with hash := some hash, status := .confirming },
       { rec with
          hash := some hash, status := .confirmed, result := some result,
          confirmationTimestamp := some now }] ∧
    notificationsFor X ((setTransactionHash s Y hash2).2) = [] ∧
    notificationsFor X ((confirmTransaction s Y result2 now2).2) = [] ∧
    notificationsFor X ((failTransaction s Y err2).2) = [] ∧
    notificationsFor X ((createTransaction s Z ty ps n3).2) = [] := by
  have hX' : JsMap.get s.queue X = some rec := hX
  have hid : rec.id = X := hwf (X, rec) (JsMap.get_mem _ _ _ hX')
  refine ⟨?_, ?_, ?_, ?_, ?_⟩
  · have h1 : setTransactionHash s X hash =
        (QState.mk
          (JsMap.set s.queue X ({ rec with hash := some hash, status := .confirming }))
          s.tasks,
         [QEvent.txUpdated ({ rec with hash := some hash, status := .confirming })]) := by
      simp [setTransactionHash, hX']
    rw [h1]
    have h2 : JsMap.get
        (JsMap.set s.queue X ({ rec with hash := some hash, status := .confirming })) X =
        some ({ rec with hash := some hash, status := .confirming }) :=
      JsMap.get_set_self _ _ _
    simp only [confirmTransaction, h2]
    simp [notificationsFor, notifiesSub, hid]
  · rcases hY : JsMap.get s.queue Y with _ | recY
    · simp [setTransactionHash, hY, notificationsFor]
    · have hidY : recY.id = Y := hwf (Y, recY) (JsMap.get_mem _ _ _ hY)
      simp [setTransactionHash, hY, notificationsFor, notifiesSub, hidY, hYX]
  · rcases hY : JsMap.get s.queue Y with _ | recY
    · simp [confirmTransaction, hY, notificationsFor]
    · have hidY : recY.id = Y := hwf (Y, recY) (JsMap.get_mem _ _ _ hY)
      simp [confirmTransaction, hY, notificationsFor, notifiesSub, hidY, hYX]
  · rcases hY : JsMap.get s.queue Y with _ | recY
    · simp [failTransaction, hY, notificationsFor]
    · have hidY : recY.id = Y := hwf (Y, recY) (JsMap.get_mem _ _ _ hY)
      simp [failTransaction, hY, notificationsFor, notifiesSub, hidY, hYX]
  · simp [createTransaction, notificationsFor, notifiesSub]

/-- Witness for C5 at a concrete input: store holding only `"X"`,
subscribed to `"X"`, mutators on `"X"`, `"Y"` and a creation of `"Z"`. -/
theorem c5_witness :
    (∀ p ∈ storeX.queue, p.2.id = p.1) ∧
    getTransaction storeX "X" = some pendingX ∧
    ("Y" : String) ≠ "X" ∧
    (notificationsFor "X"
        ((setTransactionHash storeX "X" "0xabc").2 ++
         (confirmTransaction (setTransactionHash storeX "X" "0xabc").1 "X" "ok" 7).2) =
      [{ pendingX with hash := some "0xabc", status := .confirming },
       { pendingX with
          hash := some "0xabc", status := .confirmed, result := some "ok",
          confirmationTimestamp := some 7 }] ∧
     notificationsFor "X" ((setTransactionHash storeX "Y" "0xdef").2) = [] ∧
     notificationsFor "X" ((confirmTransaction storeX "Y" "r2" 9).2) = [] ∧
     notificationsFor "X" ((failTransaction storeX "Y" "e2").2) = [] ∧
     notificationsFor "X" ((createTransaction storeX "Z" "u" "q" 11).2) = []) :=
  ⟨by decide, rfl, by decide,
    c5_notification_fidelity storeX "X" "Y" "Z" "0xabc" "0xdef" "ok" "r2" "e2" "u" "q"
      pendingX 7 9 11 (by decide) rfl (by decide)⟩

theorem dispatchFrom_skip (rec : TransactionRecord) (subsA : List Subscriber)
    (hpre : ∀ sub ∈ subsA, sub.subId ≠ rec.id) (i : Nat) (rest : List Subscriber) :
    dispatchFrom rec i (subsA ++ rest) = dispatchFrom rec (i + subsA.length) rest := by
  induction subsA generalizing i with
  | nil => simp [dispatchFrom]
  | cons sub subsA ih =>
    have hne : sub.subId ≠ rec.id := hpre sub (List.mem_cons_self _ _)
    simp only [List.cons_append, dispatchFrom, if_neg hne, List.append_eq]
    have harith : i + 1 + subsA.length = i + (sub :: subsA).length := by
      simp only [List.length_cons]
      omega
    rw [ih (fun s hs => hpre s (List.mem_cons_of_mem _ hs)) (i + 1), harith]

/-- C6 counterexample: with two subscribers to `"a"`, the first throwing,
`confirmTransaction`'s emit invokes only the first callback (index 0), the
exception propagates to the caller, and the second subscriber is never
invoked — though the record update itself was already applied. -/
theorem c6_counterexample :
    (confirmTransactionD (createTransaction ⟨[], []⟩ "a" "t" "p" 0).1 "a" "r" 1
        [⟨"a", fun _ => Except.error "boom"⟩, ⟨"a", fun _ => Except.ok ()⟩]).2 =
      ([0], some "boom") ∧
    getTransaction
        ((confirmTransactionD (createTransaction ⟨[], []⟩ "a" "t" "p" 0).1 "a" "r" 1
          [⟨"a", fun _ => Except.error "boom"⟩, ⟨"a", fun _ => Except.ok ()⟩]).1) "a" =
      some { id := "a", hash := none, status := .confirmed, type := "t", params := "p",
             result := some "r", error := none, timestamp := 0,
             confirmationTimestamp := some 1 } :=
  ⟨rfl, rfl⟩

/-- C6 (amended): the record update precedes the emit, so the store is
updated whatever the handlers do; but a handler that raises prevents
delivery to every handler registered after it, skips the history cleanup,
and the exception propagates to the caller of `confirmTransaction`. -/
theorem c6_amended_throw_propagates (s : QState) (id result e : String) (now : Nat)
    (rec : TransactionRecord) (cbT : TransactionRecord → Except String Unit)
    (subsA subsB : List Subscriber)
    (hget : getTransaction s id = some rec) (hid : rec.id = id)
    (hpre : ∀ sub ∈ subsA, sub.subId ≠ id)
    (hthrow : cbT ({ rec with
        status := .confirmed, result := some result,
        confirmationTimestamp := some now }) = Except.error e) :
    confirmTransactionD s id result now (subsA ++ ⟨id, cbT⟩ :: subsB) =
      (QState.mk
        (JsMap.set s.queue id
          ({ rec with
              status := .confirmed, result := some result,
              confirmationTimestamp := some now }))
        s.tasks,
       [subsA.length], some e) := by
  have hget' : JsMap.get s.queue id = some rec := hget
  have hid' : ({ rec with
      status := .confirmed, result := some result,
      confirmationTimestamp := some now } : TransactionRecord).id = id := hid
  simp only [confirmTransactionD, hget', dispatch]
  rw [dispatchFrom_skip _ subsA (fun sub hs => by rw [hid']; exact hpre sub hs) 0 _]
  simp only [Nat.zero_add]
  have hstep : dispatchFrom
      ({ rec with
          status := .confirmed, result := some result,
          confirmationTimestamp := some now })
      subsA.length (⟨id, cbT⟩ :: subsB) = ([subsA.length], some e) := by
    simp only [dispatchFrom]
    rw [if_pos (show (⟨id, cbT⟩ : Subscriber).subId =
        ({ rec with
            status := .confirmed, result := some result,
            confirmationTimestamp := some now } : TransactionRecord).id from hid.symm)]
    rw [hthrow]
  rw [hstep]

/-- Witness for C6 (amended) at a concrete input: one non-matching
subscriber, then a throwing subscriber to `"a"`, then a healthy subscriber
to `"a"` that is never reached. -/
theorem c6_witness :
    getTransaction (createTransaction ⟨[], []⟩ "a" "t" "p" 0).1 "a" =
      some { id := "a", hash := none, status := .pending, type := "t", params := "p",
             result := none, error := none, timestamp := 0,
             confirmationTimestamp := none } ∧
    (∀ sub ∈ ([⟨"b", fun _ => Except.ok ()⟩] : List Subscriber), sub.subId ≠ "a") ∧
    confirmTransactionD (createTransaction ⟨[], []⟩ "a" "t" "p" 0).1 "a" "r" 9
        ([⟨"b", fun _ => Except.ok ()⟩] ++
          ⟨"a", fun _ => Except.error "boom"⟩ :: [⟨"a", fun _ => Except.ok ()⟩]) =
      (QState.mk
        (JsMap.set (createTransaction ⟨[], []⟩ "a" "t" "p" 0).1.queue "a"
          ({ ({ id := "a", hash := none, status := .pending, type := "t", params := "p",
                result := none, error := none, timestamp := 0,
                confirmationTimestamp := none } : TransactionRecord) with
              status := .confirmed, result := some "r",
              confirmationTimestamp := some 9 }))
        (createTransaction ⟨[], []⟩ "a" "t" "p" 0).1.tasks,
       [1], some "boom") :=
  ⟨rfl, by simp,
    c6_amended_throw_propagates (createTransaction ⟨[], []⟩ "a" "t" "p" 0).1 "a" "r"
      "boom" 9
      { id := "a", hash := none, status := .pending, type := "t", params := "p",
        result := none, error := none, timestamp := 0, confirmationTimestamp := none }
      (fun _ => Except.error "boom")
      [⟨"b", fun _ => Except.ok ()⟩] [⟨"a", fun _ => Except.ok ()⟩]
      rfl rfl (by simp) rfl⟩

/-- C7 counterexample: read id `"a"`'s record reference, then call
`setTransactionHash`: the value observed through the previously returned
reference has changed — the read returned a live view, not a copy or an
immutable view. -/
theorem c7_counterexample :
    getTransactionRef ((createTransactionRef ⟨[], [], 0⟩ "a" "t" "p" 0).1) "a" = some 0 ∧
    derefRec ((createTransactionRef ⟨[], [], 0⟩ "a" "t" "p" 0).1) 0 =
      some { id := "a", hash := none, status := .pending, type := "t", params := "p",
             result := none, error := none, timestamp := 0,
             confirmationTimestamp := none } ∧
    derefRec (setTransactionHashRef ((createTransactionRef ⟨[], [], 0⟩ "a" "t" "p" 0).1)
        "a" "0xh") 0 =
      some { id := "a", hash := some "0xh", status := .confirming, type := "t",
             params := "p", result := none, error := none, timestamp := 0,
             confirmationTimestamp := none } ∧
    ({ id := "a", hash := none, status := .pending, type := "t", params := "p",
       result := none, error := none, timestamp := 0,
       confirmationTimestamp := none } : TransactionRecord) ≠
      { id := "a", hash := some "0xh", status := .confirming, type := "t",
        params := "p", result := none, error := none, timestamp := 0,
        confirmationTimestamp := none } :=
  ⟨rfl, rfl, rfl, by decide⟩

/-- C7 (amended): reads return live references: for an id bound to
reference `a` holding record `rec`, a mutator called after the read makes
the mutated record visible through `a` — reads are aliases of store-owned
mutable objects, not copies. -/
theorem c7_amended_live_reference (s : RefState) (id hash err : String) (a : Nat)
    (rec : TransactionRecord) (hq : getTransactionRef s id = some a)
    (hh : derefRec s a = some rec) :
    derefRec (setTransactionHashRef s id hash) a =
      some ({ rec with hash := some hash, status := .confirming }) ∧
    derefRec (failTransactionRef s id err) a =
      some ({ rec with status := .failed, error := some err }) := by
  have hq' : JsMap.get s.queue id = some a := hq
  have hh' : JsMap.get s.heap a = some rec := hh
  constructor
  · simp only [setTransactionHashRef, hq', hh', derefRec]
    exact JsMap.get_set_self _ _ _
  · simp only [failTransactionRef, hq', hh', derefRec]
    exact JsMap.get_set_self _ _ _

/-- Witness for C7 (amended) at a concrete input: the freshly created
record `"a"` at address 0. -/
theorem c7_witness :
    getTransactionRef ((createTransactionRef ⟨[], [], 0⟩ "a" "t" "p" 3).1) "a" = some 0 ∧
    derefRec ((createTransactionRef ⟨[], [], 0⟩ "a" "t" "p" 3).1) 0 =
      some { id := "a", hash := none, status := .pending, type := "t", params := "p",
             result := none, error := none, timestamp := 3,
             confirmationTimestamp := none } ∧
    (derefRec (setTransactionHashRef ((createTransactionRef ⟨[], [], 0⟩ "a" "t" "p" 3).1)
        "a" "0xbeef") 0 =
      some ({ ({ id := "a", hash := none, status := .pending, type := "t", params := "p",
                 result := none, error := none, timestamp := 3,
                 confirmationTimestamp := none } : TransactionRecord) with
               hash := some "0xbeef", status := .confirming }) ∧
     derefRec (failTransactionRef ((createTransactionRef ⟨[], [], 0⟩ "a" "t" "p" 3).1)
        "a" "err") 0 =
      some ({ ({ id := "a", hash := none, status := .pending, type := "t", params := "p",
                 result := none, error := none, timestamp := 3,
                 confirmationTimestamp := none } : TransactionRecord) with
               status := .failed, error := some "err" })) :=
  ⟨rfl, rfl,
    c7_amended_live_reference ((createTransactionRef ⟨[], [], 0⟩ "a" "t" "p" 3).1)
      "a" "0xbeef" "err" 0
      { id := "a", hash := none, status := .pending, type := "t", params := "p",
        result := none, error := none, timestamp := 3, confirmationTimestamp := none }
      rfl rfl⟩
